import Mathlib

/-!
Verification of the PDF-to-Markdown converter
(`backend/services/converter.py`, class `DocumentConverter`).

Conventions of the embedding:
* Python floats (page coordinates, font sizes, thresholds) are modelled as
  exact rational values.  They are kept as unnormalized `num/den` pairs with a
  positive denominator (`Frac`) so that every arithmetic operation is
  kernel-computable.
* Python's stable `list.sort` / `sorted` is modelled by a stable insertion
  sort (`sortStable`); a stable sort for a total preorder is unique, so this
  is the same function.
* The two compiled regexes of the source are embedded as direct matchers with
  the same backtracking semantics on the relevant pattern shapes.
* `str.strip` and the regex class `\s` are modelled over the ASCII whitespace
  characters.
-/

/-- Exact fraction with a positive denominator, kept unnormalized.  Models the
Python float values used by the converter. -/
structure Frac where
  num : Int
  den : Int
  den_pos : 0 < den
deriving DecidableEq

/-- Embeds an integer literal as a `Frac`. -/
def fofInt (n : Int) : Frac := ⟨n, 1, Int.one_pos⟩

/-- Comparison `a <= b` on fractions. -/
def fle (a b : Frac) : Bool := a.num * b.den ≤ b.num * a.den

/-- Comparison `a < b` on fractions. -/
def flt (a b : Frac) : Bool := a.num * b.den < b.num * a.den

/-- Value equality `a == b` on fractions (cross multiplication). -/
def feq (a b : Frac) : Bool := a.num * b.den = b.num * a.den

/-- Addition on fractions. -/
def fadd (a b : Frac) : Frac :=
  ⟨a.num * b.den + b.num * a.den, a.den * b.den, mul_pos a.den_pos b.den_pos⟩

/-- Subtraction on fractions. -/
def fsub (a b : Frac) : Frac :=
  ⟨a.num * b.den - b.num * a.den, a.den * b.den, mul_pos a.den_pos b.den_pos⟩

/-- Multiplication on fractions. -/
def fmul (a b : Frac) : Frac :=
  ⟨a.num * b.num, a.den * b.den, mul_pos a.den_pos b.den_pos⟩

/-- Division on fractions.  A zero divisor is mapped to 0 (this case does not
occur on the evaluated paths of the source). -/
def fdiv (a b : Frac) : Frac :=
  if h : 0 < b.num then ⟨a.num * b.den, a.den * b.num, mul_pos a.den_pos h⟩
  else if h2 : b.num < 0 then
    ⟨-(a.num * b.den), a.den * (-b.num), mul_pos a.den_pos (by omega)⟩
  else fofInt 0

/-- Absolute value on fractions (Python `abs`). -/
def fabs (a : Frac) : Frac := ⟨if a.num < 0 then -a.num else a.num, a.den, a.den_pos⟩

/-- Python `min(a, b)`: returns the first argument on ties. -/
def fmin (a b : Frac) : Frac := if fle a b then a else b

/-- Python `max(a, b)`: returns the first argument on ties. -/
def fmax (a b : Frac) : Frac := if fle b a then a else b

/-- Whitespace characters stripped by Python's `str.strip` and matched by the
regex class `\s` (ASCII range). -/
def pyIsSpace (c : Char) : Bool :=
  c == ' ' || c == '\t' || c == '\n' || c == '\r' || c == '\x0b' || c == '\x0c'

/-- Python `str.strip` on a character list. -/
def pyStripL (cs : List Char) : List Char :=
  (((cs.dropWhile pyIsSpace).reverse.dropWhile pyIsSpace)).reverse

/-- Python `str.strip`. -/
def pyStrip (s : String) : String := String.mk (pyStripL s.data)

/-- Python `str.split("\n")` on a character list. -/
def splitNL : List Char → List (List Char)
  | [] => [[]]
  | c :: cs =>
    if c == '\n' then [] :: splitNL cs
    else
      match splitNL cs with
      | [] => [[c]]
      | p :: ps => (c :: p) :: ps

/-- Whether the list starts with the given pattern. -/
def startsL : List Char → List Char → Bool
  | _, [] => true
  | [], _ :: _ => false
  | a :: as, b :: bs => a == b && startsL as bs

/-- Whether the pattern occurs contiguously in the list (Python `in`). -/
def subL : List Char → List Char → Bool
  | [], pat => startsL [] pat
  | a :: as, pat => startsL (a :: as) pat || subL as pat

/-- Python `str.lower`. -/
def lowerStr (s : String) : String := String.mk (s.data.map Char.toLower)

/-- Single pass matcher for the greedy regex piece `(\.\d+)*`.  The
accumulator holds the consumed characters in reverse; it is nonempty exactly
when at least one group has been started, in which case further digits
continue the current digit run. -/
def ddgGo (acc : List Char) : List Char → List Char × List Char
  | '.' :: d :: rest =>
    if d.isDigit then ddgGo (d :: '.' :: acc) rest
    else (acc.reverse, '.' :: d :: rest)
  | c :: rest =>
    if c.isDigit && !acc.isEmpty then ddgGo (c :: acc) rest
    else (acc.reverse, c :: rest)
  | [] => (acc.reverse, [])

/-- Greedy matcher for the regex piece `(\.\d+)*`: returns the consumed
characters and the rest of the input. -/
def dotDigitGroups (cs : List Char) : List Char × List Char := ddgGo [] cs

/-- Whether the input starts with at least one `\s` character. -/
def leadsWithSpace : List Char → Bool
  | c :: _ => pyIsSpace c
  | [] => false

/-- Embeds `numbered_header_pattern`, the compiled regex
`^(\d+(?:\.\d+)+\.?|\d+\.)\s+` applied with `re.match`; returns the text of
capture group 1 when the pattern matches. -/
def numberedHeaderLead (cs : List Char) : Option (List Char) :=
  let d1 := List.takeWhile Char.isDigit cs
  let r1 := List.dropWhile Char.isDigit cs
  if d1.isEmpty then none
  else
    let p := dotDigitGroups r1
    if p.1.isEmpty then
      match r1 with
      | '.' :: r3 => if leadsWithSpace r3 then some (d1 ++ ['.']) else none
      | _ => none
    else
      match p.2 with
      | '.' :: r3 => if leadsWithSpace r3 then some (d1 ++ p.1 ++ ['.']) else none
      | r2 => if leadsWithSpace r2 then some (d1 ++ p.1) else none

/-- Embeds `section_number_pattern`, the compiled regex `^(\d+(\.\d+)*\.?)$`
applied with `re.match` (the match must cover the whole string). -/
def sectionNumberMatch (cs : List Char) : Bool :=
  let d1 := List.takeWhile Char.isDigit cs
  let r1 := List.dropWhile Char.isDigit cs
  if d1.isEmpty then false
  else
    let p := dotDigitGroups r1
    p.2.isEmpty || p.2 == ['.']

/-- A positioned text dictionary of the source (used for the character, word
and line dicts, which share the keys `text`, `x0`, `x1`, `top`, `bottom`,
`size`, `fontname`). -/
structure TextDict where
  text : String
  x0 : Frac
  x1 : Frac
  top : Frac
  bottom : Frac
  size : Frac
  fontname : String
deriving DecidableEq

/-- A bounding box `(x0, y0, x1, y1)`. -/
structure Bbox where
  x0 : Frac
  y0 : Frac
  x1 : Frac
  y1 : Frac
deriving DecidableEq

/-- The `type` tag of an output block dict. -/
inductive Btype
  | text
  | list
  | table
  | image
deriving DecidableEq

/-- An output block dict (`type`, `content`, `y0`, `y1`). -/
structure Block where
  btype : Btype
  content : String
  y0 : Frac
  y1 : Frac
deriving DecidableEq

/-- Stable insertion of `x` into `l`: `x` is placed before the first element
`y` with `le x y`.  Used to model Python's stable sorts. -/
def insertStable (le : α → α → Bool) (x : α) : List α → List α
  | [] => [x]
  | y :: ys => if le x y then x :: y :: ys else y :: insertStable le x ys

/-- Stable sort with respect to `le`; for a total preorder this is the unique
stable sorted permutation, hence the function computed by Python's `sorted`
and `list.sort`. -/
def sortStable (le : α → α → Bool) : List α → List α
  | [] => []
  | x :: xs => insertStable le x (sortStable le xs)

/-- Embeds `_is_bold`. -/
def isBoldFont (fontname : String) : Bool := subL (lowerStr fontname).data "bold".data

/-- Embeds `_is_italic`. -/
def isItalicFont (fontname : String) : Bool :=
  subL (lowerStr fontname).data "italic".data || subL (lowerStr fontname).data "oblique".data

/-- Threshold `header_size_threshold_large = 1.3`. -/
def thresholdLarge : Frac := ⟨13, 10, by decide⟩

/-- Threshold `header_size_threshold_medium = 1.15`. -/
def thresholdMedium : Frac := ⟨23, 20, by decide⟩

/-- Threshold `header_size_threshold_small = 1.08`. -/
def thresholdSmall : Frac := ⟨27, 25, by decide⟩

/-- The level assigned by `_detect_header` to a numbered section according to
the number of dots of the matched prefix (capped at level 3). -/
def dotLevel (dotCount : Nat) : Nat :=
  if dotCount == 0 then 1
  else if dotCount == 1 then 1
  else if dotCount == 2 then 2
  else if dotCount == 3 then 3
  else 3

/-- Embeds `_detect_header`; returns `(is_header, header_level)`. -/
def detectHeader (line : TextDict) (avgFontSize : Frac) (textLength : Nat) :
    Bool × Option Nat :=
  let text := pyStrip line.text
  let sizeRatio := fdiv line.size avgFontSize
  let fontname := lowerStr line.fontname
  match numberedHeaderLead text.data with
  | some sectionNum =>
    (true, some (dotLevel (sectionNum.filter (fun c => c == '.')).length))
  | none =>
    let sizeScore : Nat :=
      if flt thresholdLarge sizeRatio then 3
      else if flt thresholdMedium sizeRatio then 2
      else if flt thresholdSmall sizeRatio then 1
      else 0
    let isBold := subL fontname.data "bold".data
    let isShort := textLength < 100
    if 2 ≤ sizeScore then (true, some (min sizeScore 3))
    else if sizeScore == 1 && (isBold || isShort) then (true, some 3)
    else if isBold && isShort && textLength < 50 then (true, some 3)
    else (false, none)

/-- Whether the character is one of the roman-numeral letters `[ivxlcdm]`,
case-insensitively. -/
def isRomanChar (c : Char) : Bool :=
  let d := c.toLower
  d == 'i' || d == 'v' || d == 'x' || d == 'l' || d == 'c' || d == 'd' || d == 'm'

/-- Whether the character is in `[a-z]`. -/
def isLowerAZ (c : Char) : Bool := 'a' ≤ c && c ≤ 'z'

/-- Matcher for `^\(([ivxlcdm]+)\)\s+` (IGNORECASE); returns group 1. -/
def romanParenLead (cs : List Char) : Option (List Char) :=
  match cs with
  | '(' :: rest =>
    let g := List.takeWhile isRomanChar rest
    let r := List.dropWhile isRomanChar rest
    if g.isEmpty then none
    else
      match r with
      | ')' :: r2 => if leadsWithSpace r2 then some g else none
      | _ => none
  | _ => none

/-- Matcher for `^(\([a-z]\)|[a-z]\))\s+`; returns group 1. -/
def letterParenLead (cs : List Char) : Option (List Char) :=
  match cs with
  | '(' :: c :: ')' :: r2 =>
    if isLowerAZ c && leadsWithSpace r2 then some ['(', c, ')'] else none
  | c :: ')' :: r2 =>
    if isLowerAZ c && leadsWithSpace r2 then some [c, ')'] else none
  | _ => none

/-- Matcher for `^(\d+)\.\s+`; returns group 1. -/
def digitsDotLead (cs : List Char) : Option (List Char) :=
  let d := List.takeWhile Char.isDigit cs
  let r := List.dropWhile Char.isDigit cs
  if d.isEmpty then none
  else
    match r with
    | '.' :: r2 => if leadsWithSpace r2 then some d else none
    | _ => none

/-- Matcher for `^(\d+)\)\s+`; returns group 1. -/
def digitsParenLead (cs : List Char) : Option (List Char) :=
  let d := List.takeWhile Char.isDigit cs
  let r := List.dropWhile Char.isDigit cs
  if d.isEmpty then none
  else
    match r with
    | ')' :: r2 => if leadsWithSpace r2 then some d else none
    | _ => none

/-- Whether the character is one of the bullet characters `•·◦▪▫`. -/
def isBulletChar (c : Char) : Bool :=
  c == '•' || c == '·' || c == '◦' || c == '▪' || c == '▫'

/-- Embeds `_detect_list_type`; returns `(is_list, list_marker, indent_level)`. -/
def detectListType (text0 : String) : Bool × String × Nat :=
  let text := pyStrip text0
  let cs := text.data
  if cs.length < 2 then (false, "", 0)
  else
    match cs with
    | [] => (false, "", 0)
    | c :: rest =>
      if isBulletChar c then (true, "-", 0)
      else if (c == '–' || c == '-' || c == '*')
          && (match rest with | r :: _ => r == ' ' | [] => false) then (true, "-", 0)
      else
        match romanParenLead cs with
        | some g => (true, "(" ++ String.mk g ++ ")", 1)
        | none =>
          match letterParenLead cs with
          | some m => (true, String.mk m, 2)
          | none =>
            match digitsDotLead cs with
            | some d => (true, String.mk d ++ ".", 0)
            | none =>
              match digitsParenLead cs with
              | some d => (true, String.mk d ++ ")", 0)
              | none => (false, "", 0)

/-- Embeds `re.sub(r'^[•·◦▪▫–\-\*]\s+', '', t)`. -/
def dropBulletLead (cs : List Char) : List Char :=
  match cs with
  | c :: rest =>
    if (isBulletChar c || c == '–' || c == '-' || c == '*') && leadsWithSpace rest then
      List.dropWhile pyIsSpace rest
    else cs
  | [] => []

/-- Embeds `re.sub(r'^\([ivxlcdm]+\)\s+', '', t, flags=re.IGNORECASE)`. -/
def dropRomanLead (cs : List Char) : List Char :=
  match cs with
  | '(' :: rest =>
    let g := List.takeWhile isRomanChar rest
    let r := List.dropWhile isRomanChar rest
    if g.isEmpty then cs
    else
      match r with
      | ')' :: r2 => if leadsWithSpace r2 then List.dropWhile pyIsSpace r2 else cs
      | _ => cs
  | _ => cs

/-- Embeds `re.sub(r'^\([a-z]\)\s+', '', t)`. -/
def dropLetterParenLead (cs : List Char) : List Char :=
  match cs with
  | '(' :: c :: ')' :: r2 =>
    if isLowerAZ c && leadsWithSpace r2 then List.dropWhile pyIsSpace r2 else cs
  | _ => cs

/-- Embeds `re.sub(r'^[a-z]\)\s+', '', t)`. -/
def dropLetterLead (cs : List Char) : List Char :=
  match cs with
  | c :: ')' :: r2 =>
    if isLowerAZ c && leadsWithSpace r2 then List.dropWhile pyIsSpace r2 else cs
  | _ => cs

/-- Embeds `re.sub(r'^\d+[\\.]\s+', '', t)`; the character class `[\\.]`
matches a backslash or a dot. -/
def dropNumDotLead (cs : List Char) : List Char :=
  let d := List.takeWhile Char.isDigit cs
  let r := List.dropWhile Char.isDigit cs
  if d.isEmpty then cs
  else
    match r with
    | c :: r2 =>
      if (c == '\\' || c == '.') && leadsWithSpace r2 then List.dropWhile pyIsSpace r2
      else cs
    | [] => cs

/-- The five marker-cleaning substitutions of the list branch of
`_group_lines_into_blocks`, in source order. -/
def cleanListMarkers (s : String) : String :=
  String.mk (dropNumDotLead (dropLetterLead (dropLetterParenLead (dropRomanLead
    (dropBulletLead s.data)))))

/-- Embeds `_merge_section_numbers`. -/
def mergeSectionNumbers : List TextDict → List TextDict
  | [] => []
  | l :: rest =>
    if sectionNumberMatch (pyStrip l.text).data then
      match rest with
      | nxt :: rest2 =>
        { text := pyStrip l.text ++ " " ++ pyStrip nxt.text
          x0 := fmin l.x0 nxt.x0
          x1 := fmax l.x1 nxt.x1
          top := l.top
          bottom := nxt.bottom
          size := fmax l.size nxt.size
          fontname := nxt.fontname } :: mergeSectionNumbers rest2
      | [] => [l]
    else l :: mergeSectionNumbers rest

/-- String repetition `"#" * n`. -/
def hashRun (n : Nat) : String := String.mk (List.replicate n '#')

/-- String repetition `"  " * n`. -/
def indentStr (n : Nat) : String := String.join (List.replicate n "  ")

/-- The continuation-line lookahead loop shared by the list branch and the
paragraph branch of `_group_lines_into_blocks`.  Returns the collected
(stripped) continuation texts, the bottom of the last collected line, and the
number of list entries consumed. -/
def gatherCont (avg : Frac) (hf : List String) : List TextDict → List String × Option Frac × Nat
  | [] => ([], none, 0)
  | l :: rest =>
    let t := pyStrip l.text
    if t == "" then
      let p := gatherCont avg hf rest
      (p.1, p.2.1, p.2.2 + 1)
    else if hf.contains t then
      let p := gatherCont avg hf rest
      (p.1, p.2.1, p.2.2 + 1)
    else if (detectHeader l avg t.length).1 || (detectListType t).1 then ([], none, 0)
    else
      let p := gatherCont avg hf rest
      (t :: p.1, some (p.2.1.getD l.bottom), p.2.2 + 1)

/-- The main `while` loop of `_group_lines_into_blocks`, run on the merged
lines.  The loop consumes at least one line per iteration, so it is driven by
a fuel argument instantiated with the length of the line list (which therefore
never runs out); this keeps the definition structurally recursive and
kernel-computable. -/
def blocksGo (avg : Frac) (hf : List String) : Nat → List TextDict → List Block
  | _, [] => []
  | 0, _ :: _ => []
  | fuel + 1, l :: rest =>
    let text := pyStrip l.text
    if text == "" then blocksGo avg hf fuel rest
    else
      let dh := detectHeader l avg text.length
      let dl := detectListType text
      if dh.1 && !(dh.2.getD 0 == 0) then
        { btype := Btype.text, content := hashRun (dh.2.getD 0) ++ " " ++ text,
          y0 := l.top, y1 := l.bottom } :: blocksGo avg hf fuel rest
      else if dl.1 then
        let g := gatherCont avg hf rest
        let fullText := String.intercalate " " (text :: g.1)
        let md := indentStr dl.2.2 ++ dl.2.1 ++ " " ++ cleanListMarkers fullText
        { btype := Btype.list, content := md, y0 := l.top, y1 := g.2.1.getD l.bottom }
          :: blocksGo avg hf fuel (rest.drop g.2.2)
      else
        let g := gatherCont avg hf rest
        let para := String.intercalate " " (text :: g.1)
        let para2 :=
          if isBoldFont l.fontname then "**" ++ para ++ "**"
          else if isItalicFont l.fontname then "*" ++ para ++ "*"
          else para
        { btype := Btype.text, content := para2, y0 := l.top, y1 := g.2.1.getD l.bottom }
          :: blocksGo avg hf fuel (rest.drop g.2.2)

/-- Embeds `_group_lines_into_blocks`. -/
def groupLinesIntoBlocks (lines : List TextDict) (avg : Frac) (hf : List String) :
    List Block :=
  if lines.isEmpty then []
  else blocksGo avg hf (mergeSectionNumbers lines).length (mergeSectionNumbers lines)

/-- Embeds `_table_to_markdown`.  Cells are `Option String` (`None` or the
stringified cell). -/
def tableToMarkdown (tableData : List (List (Option String))) : String :=
  if tableData.isEmpty then ""
  else
    let cleaned := tableData.map (fun row => row.map (fun cell =>
      match cell with
      | some s => pyStrip s
      | none => ""))
    match cleaned with
    | [] => ""
    | header :: rest =>
      let mdLines :=
        ("| " ++ String.intercalate " | " header ++ " |")
          :: ("| " ++ String.intercalate " | " (List.replicate header.length "---") ++ " |")
          :: rest.map (fun row =>
            let padded := row ++ List.replicate (header.length - row.length) ""
            "| " ++ String.intercalate " | " (padded.take header.length) ++ " |")
      String.intercalate "\n" mdLines

/-- The bbox `(x0, top, x1, bottom)` of a character dict, as built in
`_extract_text_with_layout`. -/
def charBbox (c : TextDict) : Bbox := ⟨c.x0, c.top, c.x1, c.bottom⟩

/-- The strict-overlap test of `_is_in_excluded_area`. -/
def overlapsB (c b : Bbox) : Bool :=
  flt c.x0 b.x1 && flt b.x0 c.x1 && flt c.y0 b.y1 && flt b.y0 c.y1

/-- Embeds `_is_in_excluded_area`. -/
def isInExcludedArea (c : Bbox) (tableBboxes imageBboxes : List Bbox) : Bool :=
  (tableBboxes ++ imageBboxes).any (overlapsB c)

/-- The grouping loop of `_group_chars_into_words`: splits the character list
into the runs that become words.  `prev` is the previously seen character and
`cur` the current run (reversed). -/
def charGroupsGo (prev : TextDict) (cur : List TextDict) :
    List TextDict → List (List TextDict)
  | [] => [cur.reverse]
  | c :: cs =>
    if flt (fabs (fsub c.top prev.top)) (fofInt 2) && flt (fsub c.x0 prev.x1) (fofInt 3) then
      charGroupsGo c (c :: cur) cs
    else cur.reverse :: charGroupsGo c [c] cs

/-- The runs of characters that `_group_chars_into_words` turns into words. -/
def charGroups : List TextDict → List (List TextDict)
  | [] => []
  | c :: cs => charGroupsGo c [c] cs

/-- Embeds `_chars_to_word`. -/
def charsToWord : List TextDict → TextDict
  | [] => ⟨"", fofInt 0, fofInt 0, fofInt 0, fofInt 0, fofInt 0, ""⟩
  | c :: cs =>
    { text := String.join ((c :: cs).map TextDict.text)
      x0 := (cs.map TextDict.x0).foldl fmin c.x0
      x1 := (cs.map TextDict.x1).foldl fmax c.x1
      top := (cs.map TextDict.top).foldl fmin c.top
      bottom := (cs.map TextDict.bottom).foldl fmax c.bottom
      size := c.size
      fontname := c.fontname }

/-- Embeds `_group_chars_into_words`. -/
def groupCharsIntoWords (chars : List TextDict) : List TextDict :=
  (charGroups chars).map charsToWord

/-- The sort key `(top, x0)` used by `sorted` in `_group_words_into_lines` and
in `_detect_headers_footers`. -/
def posLE (a b : TextDict) : Bool :=
  flt a.top b.top || (feq a.top b.top && fle a.x0 b.x0)

/-- The sort key `x0` used by `sorted` in `_words_to_line`. -/
def xposLE (a b : TextDict) : Bool := fle a.x0 b.x0

/-- The grouping loop of `_group_words_into_lines` on the sorted words. -/
def lineGroupsGo (prev : TextDict) (cur : List TextDict) :
    List TextDict → List (List TextDict)
  | [] => [cur.reverse]
  | w :: ws =>
    if flt (fabs (fsub w.top prev.top)) (fofInt 3) then lineGroupsGo w (w :: cur) ws
    else cur.reverse :: lineGroupsGo w [w] ws

/-- The runs of words that `_group_words_into_lines` turns into lines (the
input is sorted by `(top, x0)` first, as in the source). -/
def lineGroups (words : List TextDict) : List (List TextDict) :=
  match sortStable posLE words with
  | [] => []
  | w :: rest => lineGroupsGo w [w] rest

/-- Embeds `_words_to_line`. -/
def wordsToLine (words : List TextDict) : TextDict :=
  match words with
  | [] => ⟨"", fofInt 0, fofInt 0, fofInt 0, fofInt 0, fofInt 0, ""⟩
  | w :: rest =>
    let sorted := sortStable xposLE (w :: rest)
    let s0 := sorted.headD w
    { text := String.intercalate " " (sorted.map TextDict.text)
      x0 := (rest.map TextDict.x0).foldl fmin w.x0
      x1 := (rest.map TextDict.x1).foldl fmax w.x1
      top := (rest.map TextDict.top).foldl fmin w.top
      bottom := (rest.map TextDict.bottom).foldl fmax w.bottom
      size := s0.size
      fontname := s0.fontname }

/-- Embeds `_group_words_into_lines`. -/
def groupWordsIntoLines (words : List TextDict) : List TextDict :=
  (lineGroups words).map wordsToLine

/-- The header/footer line filter of `_extract_text_with_layout` (lines
375-381 of the source): applied only when the exclusion set is nonempty. -/
def filterHFLines (hf : List String) (lines : List TextDict) : List TextDict :=
  if hf.isEmpty then lines
  else lines.filter (fun l => !(hf.contains (pyStrip l.text)))

/-- The `filtered_chars` list of `_extract_text_with_layout`: characters not
falling into any table or image area. -/
def filteredChars (chars : List TextDict) (tableBboxes imageBboxes : List Bbox) :
    List TextDict :=
  chars.filter (fun c => !(isInExcludedArea (charBbox c) tableBboxes imageBboxes))

/-- Embeds `_extract_text_with_layout`.  The average font size is
`sum(sizes)/len(sizes)`; the `chars` empty guard of the source makes the
`else 12` default unreachable. -/
def extractTextWithLayout (chars : List TextDict) (tableBboxes imageBboxes : List Bbox)
    (hf : List String) : List Block :=
  if chars.isEmpty then []
  else
    let avg := fdiv ((chars.map TextDict.size).foldl fadd (fofInt 0)) (fofInt chars.length)
    let filtered := filteredChars chars tableBboxes imageBboxes
    if filtered.isEmpty then []
    else
      let lines := groupWordsIntoLines (groupCharsIntoWords filtered)
      groupLinesIntoBlocks (filterHFLines hf lines) avg hf

/-- One page record of the `all_pages_text` list built by
`convert_pdf_to_markdown` (characters plus page height). -/
structure HFPage where
  chars : List TextDict
  height : Frac
deriving DecidableEq

/-- The bucketing of a flushed line into the header or footer zone, from
`_detect_headers_footers`. -/
def hfZoneAdd (hlim fstart py : Frac) (lt : String) (hl fl : List String) :
    List String × List String :=
  if fle py hlim then (hl ++ [lt], fl)
  else if fle fstart py then (hl, fl ++ [lt])
  else (hl, fl)

/-- The per-page line-grouping loop of `_detect_headers_footers` over the
characters sorted by `(top, x0)`.  The final flush keeps the source's
truthiness test `if line_text and prev_y`, which also rejects `prev_y == 0`. -/
def hfLoop (hlim fstart : Frac) :
    List TextDict → List String → Option Frac → List String → List String →
    List String × List String
  | [], cur, prevY, hl, fl =>
    match cur, prevY with
    | [], _ => (hl, fl)
    | _ :: _, none => (hl, fl)
    | _ :: _, some py =>
      let lt := pyStrip (String.join cur)
      if lt != "" && !(feq py (fofInt 0)) then hfZoneAdd hlim fstart py lt hl fl
      else (hl, fl)
  | ch :: rest, cur, prevY, hl, fl =>
    match prevY with
    | none => hfLoop hlim fstart rest (cur ++ [ch.text]) (some ch.top) hl fl
    | some py =>
      if flt (fabs (fsub ch.top py)) (fofInt 3) then
        hfLoop hlim fstart rest (cur ++ [ch.text]) (some ch.top) hl fl
      else
        let lt := pyStrip (String.join cur)
        let p := if lt != "" then hfZoneAdd hlim fstart py lt hl fl else (hl, fl)
        hfLoop hlim fstart rest [ch.text] (some ch.top) p.1 p.2

/-- The header-zone and footer-zone line lists of one page
(`header_lines`, `footer_lines` in `_detect_headers_footers`); the zone
limits are `height * 0.15` and `height * 0.85`. -/
def pageHF (page : HFPage) : List String × List String :=
  hfLoop (fmul page.height ⟨3, 20, by decide⟩) (fmul page.height ⟨17, 20, by decide⟩)
    (sortStable posLE page.chars) [] none [] []

/-- The flattened `all_header_texts` list. -/
def allHeaderTexts (pages : List HFPage) : List String :=
  (pages.map (fun p => (pageHF p).1)).flatten

/-- The flattened `all_footer_texts` list. -/
def allFooterTexts (pages : List HFPage) : List String :=
  (pages.map (fun p => (pageHF p).2)).flatten

/-- Embeds `_detect_headers_footers`.  The Python `set` result is modelled as
a deduplicated list; a text is added when its occurrence count in the
flattened header (or footer) texts reaches `len(pages) // 2` and its length
exceeds 3. -/
def detectHeadersFooters (pages : List HFPage) : List String :=
  if pages.length < 3 then []
  else
    let thr := pages.length / 2
    let allH := allHeaderTexts pages
    let allF := allFooterTexts pages
    ((allH.dedup.filter (fun t => decide (thr ≤ allH.count t ∧ 3 < t.length)))
      ++ (allF.dedup.filter (fun t => decide (thr ≤ allF.count t ∧ 3 < t.length)))).dedup

/-- The sort key `y0` of `_merge_content_by_position`. -/
def blockLE (a b : Block) : Bool := fle a.y0 b.y0

/-- The concatenated and sorted block list of `_merge_content_by_position`. -/
def mergedBlocks (textBlocks tables images : List Block) : List Block :=
  sortStable blockLE (textBlocks ++ tables ++ images)

/-- The `md_lines` loop of `_merge_content_by_position`: `prev` is the
`prev_type` state. -/
def renderGo : Option Btype → List Block → List String
  | _, [] => []
  | prev, b :: rest =>
    let sep : List String :=
      match prev with
      | none => []
      | some pt =>
        if pt ≠ b.btype then [""]
        else if b.btype = Btype.text then [""]
        else if b.btype = Btype.list then [""]
        else []
    sep ++ (b.content :: renderGo (some b.btype) rest)

/-- Embeds `_merge_content_by_position`. -/
def mergeContentByPosition (textBlocks tables images : List Block) : String :=
  String.intercalate "\n" (renderGo none (mergedBlocks textBlocks tables images))

/-- The blank-line rule as worded by the specification: a blank line between
two adjacent emitted blocks exactly when the kinds differ, or both are text,
or both are list. -/
def blankBetween (a b : Block) : Bool :=
  a.btype ≠ b.btype || (a.btype = Btype.text && b.btype = Btype.text)
    || (a.btype = Btype.list && b.btype = Btype.list)

/-- Pairwise rendering of a block sequence under the specification's
blank-line rule; used to compare against `renderGo`. -/
def specRender : List Block → List String
  | [] => []
  | [b] => [b.content]
  | a :: b :: rest =>
    a.content :: (if blankBetween a b then "" :: specRender (b :: rest)
      else specRender (b :: rest))

/-- The line-pass loop of `_post_process_markdown`; `prevLine` is the
`prev_line` state and `acc` the `processed_lines` list. -/
def ppGo (prevLine : String) (acc : List String) : List String → List String
  | [] => acc
  | l :: rest =>
    if pyStrip l == "" then
      (if pyStrip prevLine != "" then ppGo l (acc ++ [""]) rest
       else
         match acc.getLast? with
         | some lastLine => if lastLine != "" then ppGo l (acc ++ [""]) rest else ppGo l acc rest
         | none => ppGo l acc rest)
    else ppGo l (acc ++ [l]) rest

/-- The replacement for one maximal newline run under
`re.sub(r"\n{3,}", "\n\n", _)`. -/
def nlEmit (k : Nat) : List Char := List.replicate (if 3 ≤ k then 2 else k) '\n'

/-- Embeds `re.sub(r"\n{3,}", "\n\n", _)`: `k` counts the pending run of
newline characters. -/
def collapseAux : List Char → Nat → List Char
  | [], k => nlEmit k
  | c :: cs, k =>
    if c == '\n' then collapseAux cs (k + 1)
    else nlEmit k ++ (c :: collapseAux cs 0)

/-- Embeds `_post_process_markdown`. -/
def postProcessMarkdown (mdContent : String) : String :=
  let lines := (splitNL mdContent.data).map String.mk
  let processed := ppGo "" [] lines
  let result := String.intercalate "\n" processed
  pyStrip (String.mk (collapseAux result.data 0))

/-- Whether three consecutive newline characters occur. -/
def hasTripleNL : List Char → Bool
  | a :: b :: c :: rest =>
    (a == '\n' && b == '\n' && c == '\n') || hasTripleNL (b :: c :: rest)
  | _ => false

/-- Whether the first and last characters are free of Python whitespace. -/
def noEdgeWs (cs : List Char) : Bool :=
  (match cs.head? with
   | some c => !pyIsSpace c
   | none => true)
  && (match cs.getLast? with
      | some c => !pyIsSpace c
      | none => true)

/-- Events on the two PDF source handles of `convert_pdf_to_markdown`. -/
inductive PdfEvent
  | openPlumber
  | openPymupdf
  | closePlumber
  | closePymupdf
deriving DecidableEq

/-- Outcome oracle for the external calls of `convert_pdf_to_markdown`: which
of the two `open` calls raise, and whether the page-processing body raises. -/
structure ConvOracle where
  plumberOpenFails : Bool
  pymupdfOpenFails : Bool
  bodyFails : Bool
deriving DecidableEq

/-- Models the handle lifecycle of `convert_pdf_to_markdown` (source lines
59-111): `pdfplumber.open`, then `pymupdf.open`, then the page loop inside
`try`, whose `finally` closes both handles.  Returns the sequence of handle
events and whether the call raises.  The second `open` sits before the `try`
block, so its failure propagates without reaching the `finally`. -/
def convertTrace (o : ConvOracle) : List PdfEvent × Bool :=
  if o.plumberOpenFails then ([], true)
  else if o.pymupdfOpenFails then ([PdfEvent.openPlumber], true)
  else
    ([PdfEvent.openPlumber, PdfEvent.openPymupdf, PdfEvent.closePlumber,
      PdfEvent.closePymupdf], o.bodyFails)

/-- A concrete line whose trimmed text is "1.1.1 Scope". -/
def scopeLine : TextDict :=
  ⟨"1.1.1 Scope", fofInt 0, fofInt 60, fofInt 10, fofInt 22, fofInt 12, "Helvetica"⟩

/-- A concrete non-bold line with font size 20 on a page whose average font
size is 12, so its size ratio 20/12 exceeds 1.3. -/
def bigLine : TextDict :=
  ⟨"Chapter One", fofInt 0, fofInt 60, fofInt 10, fofInt 22, fofInt 20, "Helvetica"⟩

/-- A concrete line reading "20.". -/
def numLine : TextDict :=
  ⟨"20.", fofInt 0, fofInt 10, fofInt 10, fofInt 20, fofInt 12, "Font-A"⟩

/-- A concrete line reading "PUBLICITY AND USE OF NAMES". -/
def titleLine : TextDict :=
  ⟨"PUBLICITY AND USE OF NAMES", fofInt 12, fofInt 80, fofInt 10, fofInt 21, fofInt 11,
    "Font-B"⟩

/-- A character cell for the header/footer pages; only `text`, `top` and `x0`
are read by the detector. -/
def hfc (t : String) (top x0 : Int) : TextDict :=
  ⟨t, fofInt x0, fofInt (x0 + 1), fofInt top, fofInt (top + 1), fofInt 10, "F"⟩

/-- A page of height 100 carrying the text "ABCD" twice inside its header
zone (two lines at tops 0 and 10, both below the zone limit 15). -/
def hfPageTop : HFPage :=
  ⟨[hfc "A" 0 0, hfc "B" 0 1, hfc "C" 0 2, hfc "D" 0 3,
    hfc "A" 10 0, hfc "B" 10 1, hfc "C" 10 2, hfc "D" 10 3], fofInt 100⟩

/-- A page of height 100 with a single character in the middle (outside both
zones). -/
def hfPageMid : HFPage := ⟨[hfc "x" 50 0], fofInt 100⟩

/-- Four pages on which "ABCD" occurs twice in the header zone of the first
page and nowhere else. -/
def hfPages4 : List HFPage := [hfPageTop, hfPageMid, hfPageMid, hfPageMid]

/-- Two pages, for the small-document boundary of header/footer detection. -/
def hfPages2 : List HFPage := [hfPageMid, hfPageMid]

/-- A concrete character lying inside `exTable`. -/
def exChar : TextDict :=
  ⟨"Z", fofInt 1, fofInt 2, fofInt 1, fofInt 2, fofInt 10, "F"⟩

/-- A concrete character lying outside `exTable`. -/
def okChar : TextDict :=
  ⟨"y", fofInt 30, fofInt 31, fofInt 1, fofInt 2, fofInt 10, "F"⟩

/-- A concrete table bounding box. -/
def exTable : Bbox := ⟨fofInt 0, fofInt 0, fofInt 10, fofInt 10⟩

theorem fle_total (a b : Frac) : fle a b || fle b a := by
  simp only [fle, Bool.or_eq_true, decide_eq_true_eq]
  exact Int.le_total (a.num * b.den) (b.num * a.den)

theorem fle_trans {a b c : Frac} (h1 : fle a b = true) (h2 : fle b c = true) :
    fle a c = true := by
  simp only [fle, decide_eq_true_eq] at h1 h2 ⊢
  nlinarith [a.den_pos, b.den_pos, c.den_pos,
    mul_le_mul_of_nonneg_right h1 (le_of_lt c.den_pos),
    mul_le_mul_of_nonneg_right h2 (le_of_lt a.den_pos)]

theorem perm_insertStable (le : α → α → Bool) (x : α) (l : List α) :
    List.Perm (insertStable le x l) (x :: l) := by
  induction l with
  | nil => exact List.Perm.refl _
  | cons y ys ih =>
    simp only [insertStable]
    by_cases h : le x y
    · rw [if_pos h]
    · rw [if_neg h]
      exact (ih.cons y).trans (List.Perm.swap x y ys)

theorem perm_sortStable (le : α → α → Bool) (l : List α) : List.Perm (sortStable le l) l := by
  induction l with
  | nil => exact List.Perm.refl _
  | cons x xs ih => exact (perm_insertStable le x (sortStable le xs)).trans (ih.cons x)

theorem mem_sortStable {le : α → α → Bool} {l : List α} {a : α} :
    a ∈ sortStable le l ↔ a ∈ l :=
  (perm_sortStable le l).mem_iff

theorem pairwise_insertStable (le : α → α → Bool)
    (htrans : ∀ a b c, le a b = true → le b c = true → le a c = true)
    (htot : ∀ a b, le a b || le b a)
    (x : α) (l : List α) (hl : l.Pairwise (fun a b => le a b = true)) :
    (insertStable le x l).Pairwise (fun a b => le a b = true) := by
  induction l with
  | nil => simp [insertStable]
  | cons y ys ih =>
    rw [List.pairwise_cons] at hl
    obtain ⟨hy, hys⟩ := hl
    simp only [insertStable]
    by_cases h : le x y = true
    · rw [if_pos h]
      rw [List.pairwise_cons]
      refine ⟨?_, List.pairwise_cons.mpr ⟨hy, hys⟩⟩
      intro z hz
      rcases List.mem_cons.mp hz with hz | hz
      · exact hz ▸ h
      · exact htrans x y z h (hy z hz)
    · rw [if_neg h]
      rw [List.pairwise_cons]
      refine ⟨?_, ih hys⟩
      intro z hz
      have hz2 : z = x ∨ z ∈ ys := by
        have := (perm_insertStable le x ys).mem_iff.mp hz
        simpa using this
      rcases hz2 with hzx | hz2
      · rw [hzx]
        have h2 := htot x y
        simp only [Bool.or_eq_true] at h2
        rcases h2 with h1 | h1
        · exact absurd h1 h
        · exact h1
      · exact hy z hz2

theorem pairwise_sortStable (le : α → α → Bool)
    (htrans : ∀ a b c, le a b = true → le b c = true → le a c = true)
    (htot : ∀ a b, le a b || le b a) (l : List α) :
    (sortStable le l).Pairwise (fun a b => le a b = true) := by
  induction l with
  | nil => simp [sortStable]
  | cons x xs ih => exact pairwise_insertStable le htrans htot x (sortStable le xs) ih

theorem blockLE_trans (a b c : Block) (h1 : blockLE a b = true) (h2 : blockLE b c = true) :
    blockLE a c = true := fle_trans h1 h2

theorem blockLE_total (a b : Block) : blockLE a b || blockLE b a := fle_total a.y0 b.y0

theorem renderGo_cons (a b : Block) (rest : List Block) :
    renderGo (some a.btype) (b :: rest) =
      (if blankBetween a b then [""] else []) ++ (b.content :: renderGo (some b.btype) rest) := by
  obtain ⟨ta, ca, ya, za⟩ := a
  obtain ⟨tb, cb, yb, zb⟩ := b
  simp only [renderGo]
  congr 1
  cases ta <;> cases tb <;> simp [blankBetween]

theorem specRender_cons (a : Block) (l : List Block) :
    specRender (a :: l) = a.content :: renderGo (some a.btype) l := by
  induction l generalizing a with
  | nil => rfl
  | cons b rest ih =>
    rw [renderGo_cons]
    simp only [specRender]
    rw [ih b]
    by_cases h : blankBetween a b = true
    · rw [if_pos h, if_pos h]
      rfl
    · rw [if_neg h, if_neg h]
      rfl

theorem renderGo_eq_specRender (l : List Block) : renderGo none l = specRender l := by
  cases l with
  | nil => rfl
  | cons a rest =>
    rw [specRender_cons a rest]
    rfl

/-- C2 counterexample: `_table_to_markdown [[]]` is not the empty string (the
guard `not table_data or len(table_data) < 1` does not reject `[[]]`, and the
zero-column header and separator rows are emitted). -/
theorem c2_counterexample : tableToMarkdown [([] : List (Option String))] ≠ "" := by decide

/-- C2 (amended): `_table_to_markdown []` returns the empty string, while
`_table_to_markdown [[]]` returns the degenerate two-line table consisting of
a zero-column header row and separator row, `"|  |\n|  |"`. -/
theorem c2_theorem :
    tableToMarkdown [] = ""
    ∧ tableToMarkdown [([] : List (Option String))] = "|  |\n|  |" := by decide

/-- C3: on a non-bold line with no numbered prefix whose size ratio 20/12
exceeds the 1.3 threshold, `_detect_header` returns heading level 3, not the
level 1 promised by the claim and by the source's own `size_score = 3  # H1`
comment. -/
theorem c3_theorem :
    numberedHeaderLead (pyStrip bigLine.text).data = none
    ∧ flt thresholdLarge (fdiv bigLine.size (fofInt 12)) = true
    ∧ isBoldFont bigLine.fontname = false
    ∧ detectHeader bigLine (fofInt 12) 11 = (true, some 3) := by decide

/-- C5: when `pdfplumber.open` succeeds and `pymupdf.open` raises, the
invocation propagates the exception with the pdfplumber handle opened but
never closed (the second `open` sits before the `try`/`finally`). -/
theorem c5_theorem :
    convertTrace ⟨false, true, false⟩ = ([PdfEvent.openPlumber], true)
    ∧ PdfEvent.openPlumber ∈ (convertTrace ⟨false, true, false⟩).1
    ∧ PdfEvent.closePlumber ∉ (convertTrace ⟨false, true, false⟩).1 := by decide

/-- C9: `_merge_content_by_position` renders the concatenated blocks sorted
ascending by `y0`, and its blank-line insertion agrees with the pairwise
rule: a blank line between adjacent blocks exactly when their types differ,
or both are text, or both are list. -/
theorem c9_theorem (textBlocks tables images : List Block) :
    mergeContentByPosition textBlocks tables images =
      String.intercalate "\n" (specRender (mergedBlocks textBlocks tables images))
    ∧ (mergedBlocks textBlocks tables images).Pairwise (fun a b => fle a.y0 b.y0 = true) := by
  constructor
  · unfold mergeContentByPosition
    rw [renderGo_eq_specRender]
  · exact pairwise_sortStable blockLE blockLE_trans blockLE_total _

theorem mem_of_charGroupsGo {l : List TextDict} :
    ∀ {prev cur g x}, g ∈ charGroupsGo prev cur l → x ∈ g → x ∈ cur ∨ x ∈ l := by
  induction l with
  | nil =>
    intro prev cur g x hg hx
    simp only [charGroupsGo, List.mem_singleton] at hg
    subst hg
    exact Or.inl (List.mem_reverse.mp hx)
  | cons c cs ih =>
    intro prev cur g x hg hx
    simp only [charGroupsGo] at hg
    by_cases hcond :
        (flt (fabs (fsub c.top prev.top)) (fofInt 2) && flt (fsub c.x0 prev.x1) (fofInt 3)) = true
    · rw [if_pos hcond] at hg
      rcases ih hg hx with h1 | h1
      · rcases List.mem_cons.mp h1 with h2 | h2
        · exact Or.inr (h2 ▸ List.mem_cons_self c cs)
        · exact Or.inl h2
      · exact Or.inr (List.mem_cons_of_mem c h1)
    · rw [if_neg hcond] at hg
      rcases List.mem_cons.mp hg with h1 | h1
      · subst h1
        exact Or.inl (List.mem_reverse.mp hx)
      · rcases ih h1 hx with h2 | h2
        · simp only [List.mem_singleton] at h2
          exact Or.inr (h2 ▸ List.mem_cons_self c cs)
        · exact Or.inr (List.mem_cons_of_mem c h2)

theorem mem_of_charGroups {cs : List TextDict} {g : List TextDict} {x : TextDict}
    (hg : g ∈ charGroups cs) (hx : x ∈ g) : x ∈ cs := by
  cases cs with
  | nil => simp [charGroups] at hg
  | cons c rest =>
    rcases mem_of_charGroupsGo hg hx with h | h
    · simp only [List.mem_singleton] at h
      exact h ▸ List.mem_cons_self c rest
    · exact List.mem_cons_of_mem c h

theorem mem_of_lineGroupsGo {l : List TextDict} :
    ∀ {prev cur g x}, g ∈ lineGroupsGo prev cur l → x ∈ g → x ∈ cur ∨ x ∈ l := by
  induction l with
  | nil =>
    intro prev cur g x hg hx
    simp only [lineGroupsGo, List.mem_singleton] at hg
    subst hg
    exact Or.inl (List.mem_reverse.mp hx)
  | cons c cs ih =>
    intro prev cur g x hg hx
    simp only [lineGroupsGo] at hg
    by_cases hcond : (flt (fabs (fsub c.top prev.top)) (fofInt 3)) = true
    · rw [if_pos hcond] at hg
      rcases ih hg hx with h1 | h1
      · rcases List.mem_cons.mp h1 with h2 | h2
        · exact Or.inr (h2 ▸ List.mem_cons_self c cs)
        · exact Or.inl h2
      · exact Or.inr (List.mem_cons_of_mem c h1)
    · rw [if_neg hcond] at hg
      rcases List.mem_cons.mp hg with h1 | h1
      · subst h1
        exact Or.inl (List.mem_reverse.mp hx)
      · rcases ih h1 hx with h2 | h2
        · simp only [List.mem_singleton] at h2
          exact Or.inr (h2 ▸ List.mem_cons_self c cs)
        · exact Or.inr (List.mem_cons_of_mem c h2)

theorem mem_of_lineGroups {ws : List TextDict} {g : List TextDict} {w : TextDict}
    (hg : g ∈ lineGroups ws) (hw : w ∈ g) : w ∈ ws := by
  rw [← @mem_sortStable TextDict posLE ws w]
  unfold lineGroups at hg
  rcases hsort : sortStable posLE ws with _ | ⟨a, rest⟩
  · rw [hsort] at hg
    simp at hg
  · rw [hsort] at hg
    have hg2 : g ∈ lineGroupsGo a [a] rest := hg
    rcases mem_of_lineGroupsGo hg2 hw with h | h
    · simp only [List.mem_singleton] at h
      exact h ▸ List.mem_cons_self a rest
    · exact List.mem_cons_of_mem a h

/-- C8: a character overlapping a table or image bounding box is removed by
the filter of `_extract_text_with_layout` before word grouping; it belongs to
no character run underlying any word, and every word of every produced line
comes from a character run that excludes it. -/
theorem c8_theorem (chars : List TextDict) (tableBboxes imageBboxes : List Bbox) (c : TextDict)
    (hc : isInExcludedArea (charBbox c) tableBboxes imageBboxes = true) :
    c ∉ filteredChars chars tableBboxes imageBboxes
    ∧ (∀ g ∈ charGroups (filteredChars chars tableBboxes imageBboxes), c ∉ g)
    ∧ (∀ lg ∈ lineGroups (groupCharsIntoWords (filteredChars chars tableBboxes imageBboxes)),
        ∀ w ∈ lg, ∃ g ∈ charGroups (filteredChars chars tableBboxes imageBboxes),
          w = charsToWord g ∧ c ∉ g) := by
  have hnot : c ∉ filteredChars chars tableBboxes imageBboxes := by
    intro hmem
    rw [filteredChars, List.mem_filter] at hmem
    rw [hc] at hmem
    simp at hmem
  refine ⟨hnot, ?_, ?_⟩
  · intro g hg hcg
    exact hnot (mem_of_charGroups hg hcg)
  · intro lg hlg w hw
    have hwmem : w ∈ groupCharsIntoWords (filteredChars chars tableBboxes imageBboxes) :=
      mem_of_lineGroups hlg hw
    rw [groupCharsIntoWords, List.mem_map] at hwmem
    obtain ⟨g, hg, hwg⟩ := hwmem
    exact ⟨g, hg, hwg.symm, fun hcg => hnot (mem_of_charGroups hg hcg)⟩

/-- Witness for C8 at a concrete page: `exChar` overlaps `exTable` and is
excluded from the word and line structure built from `[exChar, okChar]`. -/
theorem c8_witness :
    isInExcludedArea (charBbox exChar) [exTable] [] = true
    ∧ (exChar ∉ filteredChars [exChar, okChar] [exTable] []
       ∧ (∀ g ∈ charGroups (filteredChars [exChar, okChar] [exTable] []), exChar ∉ g)
       ∧ (∀ lg ∈ lineGroups (groupCharsIntoWords (filteredChars [exChar, okChar] [exTable] [])),
           ∀ w ∈ lg, ∃ g ∈ charGroups (filteredChars [exChar, okChar] [exTable] []),
             w = charsToWord g ∧ exChar ∉ g)) :=
  ⟨by decide, c8_theorem [exChar, okChar] [exTable] [] exChar (by decide)⟩

/-- C4 counterexample: on `hfPages4` (four pages with characters), the text
"ABCD" is in the detected header/footer set although it occurs in the header
zone of only one page (twice on that page) and in no footer zone, so it does
not reach the claimed per-page threshold `⌊pages/2⌋ = 2`. -/
theorem c4_counterexample :
    3 ≤ hfPages4.length
    ∧ "ABCD" ∈ detectHeadersFooters hfPages4
    ∧ (hfPages4.filter (fun p => (pageHF p).1.contains "ABCD")).length < hfPages4.length / 2
    ∧ (hfPages4.filter (fun p => (pageHF p).2.contains "ABCD")).length < hfPages4.length / 2 := by
  decide

/-- C4 (amended): for a document with at least 3 pages with characters, a
line text is in the set returned by `_detect_headers_footers` if and only if
its length exceeds 3 (hence it is non-empty) and it occurs at least
`⌊pages/2⌋` times in total among the header-zone lines of all pages (or,
analogously, among the footer-zone lines), occurrences on the same page
counted separately. -/
theorem c4_theorem (pages : List HFPage) (t : String) (h : 3 ≤ pages.length) :
    t ∈ detectHeadersFooters pages ↔
      3 < t.length ∧
        (pages.length / 2 ≤ (allHeaderTexts pages).count t
          ∨ pages.length / 2 ≤ (allFooterTexts pages).count t) := by
  unfold detectHeadersFooters
  rw [if_neg (by omega)]
  simp only [List.mem_dedup, List.mem_append, List.mem_filter, decide_eq_true_eq]
  constructor
  · rintro (⟨hmem, hcount, hlen⟩ | ⟨hmem, hcount, hlen⟩)
    · exact ⟨hlen, Or.inl hcount⟩
    · exact ⟨hlen, Or.inr hcount⟩
  · rintro ⟨hlen, hcount | hcount⟩
    · refine Or.inl ⟨?_, hcount, hlen⟩
      rw [← List.count_pos_iff]
      omega
    · refine Or.inr ⟨?_, hcount, hlen⟩
      rw [← List.count_pos_iff]
      omega

/-- Witness for C4 at the concrete four-page document. -/
theorem c4_witness :
    3 ≤ hfPages4.length
    ∧ ("ABCD" ∈ detectHeadersFooters hfPages4 ↔
        3 < "ABCD".length ∧
          (hfPages4.length / 2 ≤ (allHeaderTexts hfPages4).count "ABCD"
            ∨ hfPages4.length / 2 ≤ (allFooterTexts hfPages4).count "ABCD")) :=
  ⟨by decide, c4_theorem hfPages4 "ABCD" (by decide)⟩

/-- C7: with fewer than 3 pages with characters, `_detect_headers_footers`
returns the empty set, and the header/footer line filter of
`_extract_text_with_layout` then keeps every line. -/
theorem c7_theorem (pages : List HFPage) (h : pages.length < 3) :
    detectHeadersFooters pages = []
    ∧ (∀ lines : List TextDict, filterHFLines (detectHeadersFooters pages) lines = lines) := by
  have hd : detectHeadersFooters pages = [] := by
    unfold detectHeadersFooters
    rw [if_pos h]
  exact ⟨hd, fun lines => by rw [hd]; rfl⟩

/-- Witness for C7 at a concrete two-page document. -/
theorem c7_witness :
    hfPages2.length < 3
    ∧ detectHeadersFooters hfPages2 = []
    ∧ filterHFLines (detectHeadersFooters hfPages2) [scopeLine] = [scopeLine] :=
  ⟨by decide, (c7_theorem hfPages2 (by decide)).1, (c7_theorem hfPages2 (by decide)).2 [scopeLine]⟩

theorem detectHeader_numbered (ln : TextDict) (avg : Frac) (n : Nat) (g : List Char)
    (h : numberedHeaderLead (pyStrip ln.text).data = some g) :
    detectHeader ln avg n =
      (true, some (dotLevel (g.filter (fun c => c == '.')).length)) := by
  simp only [detectHeader, h]

/-- C1 counterexample: on a concrete line whose trimmed text is
"1.1.1 Scope", `_detect_header` returns level 2 (the prefix "1.1.1" has two
dots), not level 3, and the emitted block content is "## 1.1.1 Scope". -/
theorem c1_counterexample :
    detectHeader scopeLine (fofInt 12) 11 ≠ (true, some 3)
    ∧ detectHeader scopeLine (fofInt 12) 11 = (true, some 2)
    ∧ (groupLinesIntoBlocks [scopeLine] (fofInt 12) []).map Block.content
        = ["## 1.1.1 Scope"] := by decide

/-- C1 (amended): for a line whose trimmed text is "1.1.1 Scope", block
classification produces a level-2 heading: `_detect_header` returns
`(true, 2)` and the emitted Markdown block content is "## 1.1.1 Scope", with
the numeric prefix preserved in the emitted text. -/
theorem c1_theorem (l : TextDict) (avg : Frac) (n : Nat) (hf : List String)
    (h : pyStrip l.text = "1.1.1 Scope") :
    detectHeader l avg n = (true, some 2)
    ∧ groupLinesIntoBlocks [l] avg hf =
        [{ btype := Btype.text, content := "## 1.1.1 Scope", y0 := l.top, y1 := l.bottom }] := by
  have hlead : numberedHeaderLead (pyStrip l.text).data = some "1.1.1".data := by
    rw [h]
    decide
  have hdh : ∀ m, detectHeader l avg m = (true, some 2) := by
    intro m
    rw [detectHeader_numbered l avg m "1.1.1".data hlead]
    decide
  refine ⟨hdh n, ?_⟩
  have hsec : sectionNumberMatch ("1.1.1 Scope").data = false := by decide
  have hmerge : mergeSectionNumbers [l] = [l] := by
    simp only [mergeSectionNumbers, h, hsec, Bool.false_eq_true, if_false]
  rw [groupLinesIntoBlocks, hmerge]
  simp only [List.isEmpty_cons, Bool.false_eq_true, if_false, List.length_cons,
    List.length_nil, blocksGo, h, hdh, Option.getD_some]
  simp [(by decide : ("1.1.1 Scope" == "") = false),
    (by decide : hashRun 2 ++ " " ++ "1.1.1 Scope" = "## 1.1.1 Scope")]

/-- Witness for C1 at a concrete line. -/
theorem c1_witness :
    pyStrip scopeLine.text = "1.1.1 Scope"
    ∧ (detectHeader scopeLine (fofInt 12) 11 = (true, some 2)
       ∧ groupLinesIntoBlocks [scopeLine] (fofInt 12) [] =
           [{ btype := Btype.text, content := "## 1.1.1 Scope", y0 := scopeLine.top,
              y1 := scopeLine.bottom }]) :=
  ⟨by decide, c1_theorem scopeLine (fofInt 12) 11 [] (by decide)⟩

/-- C6: a line whose trimmed text is "20." followed by a line
"PUBLICITY AND USE OF NAMES" merges into a single line carrying the combined
text, a bbox spanning both lines, the maximum of the two font sizes, and the
second line's font name; classification renders it as the level-1 heading
"# 20. PUBLICITY AND USE OF NAMES". -/
theorem c6_theorem (l1 l2 : TextDict) (avg : Frac) (hf : List String)
    (h1 : pyStrip l1.text = "20.") (h2 : pyStrip l2.text = "PUBLICITY AND USE OF NAMES") :
    mergeSectionNumbers [l1, l2] =
      [{ text := "20. PUBLICITY AND USE OF NAMES", x0 := fmin l1.x0 l2.x0,
         x1 := fmax l1.x1 l2.x1, top := l1.top, bottom := l2.bottom,
         size := fmax l1.size l2.size, fontname := l2.fontname }]
    ∧ groupLinesIntoBlocks [l1, l2] avg hf =
        [{ btype := Btype.text, content := "# 20. PUBLICITY AND USE OF NAMES",
           y0 := l1.top, y1 := l2.bottom }] := by
  have hsec : sectionNumberMatch ("20.").data = true := by decide
  have hmerge : mergeSectionNumbers [l1, l2] =
      [{ text := "20. PUBLICITY AND USE OF NAMES", x0 := fmin l1.x0 l2.x0,
         x1 := fmax l1.x1 l2.x1, top := l1.top, bottom := l2.bottom,
         size := fmax l1.size l2.size, fontname := l2.fontname }] := by
    simp only [mergeSectionNumbers, h1, h2, hsec, if_true]
    simp [(by decide :
      "20." ++ " " ++ "PUBLICITY AND USE OF NAMES" = "20. PUBLICITY AND USE OF NAMES")]
  refine ⟨hmerge, ?_⟩
  rw [groupLinesIntoBlocks, hmerge]
  have hps : pyStrip "20. PUBLICITY AND USE OF NAMES" = "20. PUBLICITY AND USE OF NAMES" := by
    decide
  have hdh : ∀ m, detectHeader
      { text := "20. PUBLICITY AND USE OF NAMES", x0 := fmin l1.x0 l2.x0,
        x1 := fmax l1.x1 l2.x1, top := l1.top, bottom := l2.bottom,
        size := fmax l1.size l2.size, fontname := l2.fontname }
      avg m = (true, some 1) := by
    intro m
    rw [detectHeader_numbered _ avg m "20.".data
      (show numberedHeaderLead (pyStrip "20. PUBLICITY AND USE OF NAMES").data
          = some "20.".data by decide)]
    decide
  simp only [List.isEmpty_cons, Bool.false_eq_true, if_false, List.length_cons,
    List.length_nil, blocksGo, hps, hdh, Option.getD_some]
  simp [(by decide : ("20. PUBLICITY AND USE OF NAMES" == "") = false),
    (by decide :
      hashRun 1 ++ " " ++ "20. PUBLICITY AND USE OF NAMES" = "# 20. PUBLICITY AND USE OF NAMES")]

/-- Witness for C6 at a concrete pair of lines. -/
theorem c6_witness :
    pyStrip numLine.text = "20."
    ∧ pyStrip titleLine.text = "PUBLICITY AND USE OF NAMES"
    ∧ (mergeSectionNumbers [numLine, titleLine] =
        [{ text := "20. PUBLICITY AND USE OF NAMES", x0 := fmin numLine.x0 titleLine.x0,
           x1 := fmax numLine.x1 titleLine.x1, top := numLine.top, bottom := titleLine.bottom,
           size := fmax numLine.size titleLine.size, fontname := titleLine.fontname }]
       ∧ groupLinesIntoBlocks [numLine, titleLine] (fofInt 12) [] =
           [{ btype := Btype.text, content := "# 20. PUBLICITY AND USE OF NAMES",
              y0 := numLine.top, y1 := titleLine.bottom }]) :=
  ⟨by decide, by decide, c6_theorem numLine titleLine (fofInt 12) [] (by decide) (by decide)⟩

theorem ht_cons_ne {c : Char} (hc : ¬c = '\n') (l : List Char) :
    hasTripleNL (c :: l) = hasTripleNL l := by
  have hcb : (c == '\n') = false := by simp [hc]
  match l with
  | [] => rfl
  | [b] => rfl
  | b :: d :: r => simp [hasTripleNL, hcb]

theorem ht_cons₂ {c : Char} (a : Char) (hc : ¬c = '\n') {t : List Char}
    (ht : hasTripleNL t = false) : hasTripleNL (a :: c :: t) = false := by
  have hcb : (c == '\n') = false := by simp [hc]
  match t with
  | [] => rfl
  | d :: r =>
    simp only [hasTripleNL, hcb, Bool.and_false, Bool.false_and, Bool.and_self,
      Bool.false_or]
    rw [ht_cons_ne hc]
    exact ht

theorem ht_cons_of_tail {l : List Char} (a : Char) (h : hasTripleNL l = true) :
    hasTripleNL (a :: l) = true := by
  match l with
  | [] => simp [hasTripleNL] at h
  | [b] => simp [hasTripleNL] at h
  | b :: d :: r =>
    simp only [hasTripleNL, Bool.or_eq_true]
    exact Or.inr h

theorem ht_nlEmit_append (k : Nat) (c : Char) (t : List Char) (hc : ¬c = '\n')
    (ht : hasTripleNL t = false) : hasTripleNL (nlEmit k ++ c :: t) = false := by
  have hcb : (c == '\n') = false := by simp [hc]
  have h2 : hasTripleNL ('\n' :: '\n' :: c :: t) = false := by
    match t with
    | [] => simp [hasTripleNL, hcb]
    | d :: r =>
      simp only [hasTripleNL, hcb, Bool.and_false, Bool.false_and, Bool.false_or]
      rw [ht_cons_ne hc]
      exact ht
  unfold nlEmit
  by_cases h3 : 3 ≤ k
  · rw [if_pos h3]
    exact h2
  · rw [if_neg h3]
    interval_cases k
    · simpa [ht_cons_ne hc] using ht
    · exact ht_cons₂ '\n' hc ht
    · exact h2

theorem collapse_no_triple (cs : List Char) : ∀ k, hasTripleNL (collapseAux cs k) = false := by
  induction cs with
  | nil =>
    intro k
    unfold collapseAux nlEmit
    by_cases h3 : 3 ≤ k
    · rw [if_pos h3]
      decide
    · rw [if_neg h3]
      interval_cases k <;> decide
  | cons c cs ih =>
    intro k
    unfold collapseAux
    by_cases hc : (c == '\n') = true
    · rw [if_pos hc]
      exact ih (k + 1)
    · rw [if_neg hc]
      have hcne : ¬c = '\n' := by simpa using hc
      exact ht_nlEmit_append k c _ hcne (ih 0)

theorem ht_iff_parts (l : List Char) :
    hasTripleNL l = true ↔ ∃ u v, l = u ++ '\n' :: '\n' :: '\n' :: v := by
  constructor
  · induction l with
    | nil => intro h; simp [hasTripleNL] at h
    | cons a l ih =>
      intro h
      match l, h with
      | [], h => simp [hasTripleNL] at h
      | [b], h => simp [hasTripleNL] at h
      | b :: d :: r, h =>
        simp only [hasTripleNL, Bool.or_eq_true, Bool.and_eq_true, beq_iff_eq] at h
        rcases h with ⟨⟨ha, hb⟩, hd⟩ | h
        · exact ⟨[], r, by simp [ha, hb, hd]⟩
        · obtain ⟨u, v, huv⟩ := ih (by simpa [hasTripleNL] using h)
          exact ⟨a :: u, v, by simp [huv]⟩
  · rintro ⟨u, v, rfl⟩
    induction u with
    | nil => simp [hasTripleNL]
    | cons a u ih =>
      rw [List.cons_append]
      exact ht_cons_of_tail a ih

theorem ht_mid (pre mid post : List Char)
    (h : hasTripleNL (pre ++ mid ++ post) = false) : hasTripleNL mid = false := by
  by_contra hx
  have hmid : hasTripleNL mid = true := by
    simpa using hx
  obtain ⟨u, v, huv⟩ := (ht_iff_parts mid).mp hmid
  have hall : hasTripleNL (pre ++ mid ++ post) = true := by
    apply (ht_iff_parts _).mpr
    exact ⟨pre ++ u, v ++ post, by simp [huv]⟩
  rw [hall] at h
  exact absurd h (by simp)

theorem dropWhile_parts (p : α → Bool) (l : List α) : ∃ t, l = t ++ l.dropWhile p := by
  induction l with
  | nil => exact ⟨[], rfl⟩
  | cons a l ih =>
    by_cases h : p a = true
    · obtain ⟨t, ht⟩ := ih
      exact ⟨a :: t, by rw [List.dropWhile_cons, if_pos h, List.cons_append, ← ht]⟩
    · exact ⟨[], by rw [List.dropWhile_cons, if_neg h, List.nil_append]⟩

theorem pyStripL_parts (cs : List Char) : ∃ pre post, cs = pre ++ pyStripL cs ++ post := by
  obtain ⟨t1, h1⟩ := dropWhile_parts pyIsSpace cs
  obtain ⟨t2, h2⟩ := dropWhile_parts pyIsSpace (cs.dropWhile pyIsSpace).reverse
  refine ⟨t1, t2.reverse, ?_⟩
  calc cs = t1 ++ cs.dropWhile pyIsSpace := h1
    _ = t1 ++ ((cs.dropWhile pyIsSpace).reverse).reverse := by rw [List.reverse_reverse]
    _ = t1 ++ (t2 ++ (cs.dropWhile pyIsSpace).reverse.dropWhile pyIsSpace).reverse := by
        rw [← h2]
    _ = t1 ++ (pyStripL cs ++ t2.reverse) := by
        rw [List.reverse_append]
        rfl
    _ = t1 ++ pyStripL cs ++ t2.reverse := by rw [List.append_assoc]

theorem head_dropWhile_false (p : α → Bool) (l : List α) :
    ∀ c, (l.dropWhile p).head? = some c → p c = false := by
  induction l with
  | nil => intro c h; simp at h
  | cons a l ih =>
    intro c h
    rw [List.dropWhile_cons] at h
    by_cases ha : p a = true
    · rw [if_pos ha] at h
      exact ih c h
    · rw [if_neg ha] at h
      simp only [List.head?_cons, Option.some.injEq] at h
      subst h
      simpa using ha

theorem noEdgeWs_pyStripL (cs : List Char) : noEdgeWs (pyStripL cs) = true := by
  have hback : ∀ c, (pyStripL cs).getLast? = some c → pyIsSpace c = false := by
    intro c h
    rw [pyStripL, List.getLast?_reverse] at h
    exact head_dropWhile_false pyIsSpace _ c h
  have hfront : ∀ c, (pyStripL cs).head? = some c → pyIsSpace c = false := by
    intro c h
    rw [pyStripL, List.head?_reverse] at h
    obtain ⟨t2, h2⟩ := dropWhile_parts pyIsSpace (cs.dropWhile pyIsSpace).reverse
    have hlast : ((cs.dropWhile pyIsSpace).reverse).getLast? = some c := by
      rw [h2, List.getLast?_append]
      rw [h]
      rfl
    rw [List.getLast?_reverse] at hlast
    exact head_dropWhile_false pyIsSpace cs c hlast
  unfold noEdgeWs
  rcases hh : (pyStripL cs).head? with _ | c1 <;> rcases hl : (pyStripL cs).getLast? with _ | c2
  · simp
  · simp [hback c2 hl]
  · simp [hfront c1 hh]
  · simp [hfront c1 hh, hback c2 hl]

/-- C10: for every input string, `_post_process_markdown` returns a string
containing no three consecutive newline characters (so never two or more
consecutive blank lines) and carrying no leading or trailing whitespace. -/
theorem c10_theorem (s : String) :
    hasTripleNL (postProcessMarkdown s).data = false
    ∧ noEdgeWs (postProcessMarkdown s).data = true := by
  unfold postProcessMarkdown
  constructor
  · show hasTripleNL (pyStripL (collapseAux (String.intercalate "\n"
      (ppGo "" [] ((splitNL s.data).map String.mk))).data 0)) = false
    obtain ⟨pre, post, hparts⟩ := pyStripL_parts (collapseAux (String.intercalate "\n"
      (ppGo "" [] ((splitNL s.data).map String.mk))).data 0)
    apply ht_mid pre _ post
    rw [← hparts]
    exact collapse_no_triple _ 0
  · exact noEdgeWs_pyStripL _

example : sectionNumberMatch "20.".data = true := by decide
example : sectionNumberMatch "1.1".data = true := by decide
example : sectionNumberMatch "1.1 Scope".data = false := by decide
example : numberedHeaderLead "1.1.1 Scope".data = some "1.1.1".data := by decide
example : numberedHeaderLead "20. TEXT".data = some "20.".data := by decide
example : numberedHeaderLead "5265 Street Name".data = none := by decide
example : numberedHeaderLead "1.1. TEXT".data = some "1.1.".data := by decide
example : pyStrip "  a b " = "a b" := by decide
example : subL "abcbold".data "bold".data = true := by decide
example : subL "abcbol".data "bold".data = false := by decide

example : tableToMarkdown [] = "" := by decide
example : tableToMarkdown [[]] = "|  |\n|  |" := by decide
example :
    tableToMarkdown [[some "a", some "b"], [some "1"]] =
      "| a | b |\n| --- | --- |\n| 1 |  |" := by decide
example :
    detectHeader ⟨"1.1.1 Scope", fofInt 0, fofInt 0, fofInt 0, fofInt 0, fofInt 12, "F"⟩
      (fofInt 12) 11 = (true, some 2) := by decide
example :
    detectHeader ⟨"Chapter One", fofInt 0, fofInt 0, fofInt 0, fofInt 0, fofInt 20, "Helvetica"⟩
      (fofInt 12) 11 = (true, some 3) := by decide
example :
    groupLinesIntoBlocks [⟨"1.1.1 Scope", fofInt 0, fofInt 0, fofInt 1, fofInt 2, fofInt 12, "F"⟩]
      (fofInt 12) [] =
    [⟨Btype.text, "## 1.1.1 Scope", fofInt 1, fofInt 2⟩] := by decide
example :
    groupLinesIntoBlocks
      [⟨"20.", fofInt 0, fofInt 1, fofInt 1, fofInt 2, fofInt 12, "F1"⟩,
       ⟨"PUBLICITY AND USE OF NAMES", fofInt 0, fofInt 9, fofInt 1, fofInt 3, fofInt 11, "F2"⟩]
      (fofInt 12) [] =
    [⟨Btype.text, "# 20. PUBLICITY AND USE OF NAMES", fofInt 1, fofInt 3⟩] := by decide

example :
    mergeContentByPosition
      [⟨Btype.text, "a", fofInt 5, fofInt 6⟩]
      [⟨Btype.table, "t1", fofInt 1, fofInt 2⟩, ⟨Btype.table, "t2", fofInt 3, fofInt 4⟩]
      [] = "t1\nt2\n\na" := by decide
example : postProcessMarkdown " x\n\n\n\ny " = "x\n\ny" := by decide
example : hasTripleNL "a\n\n\nb".data = true := by decide
example : hasTripleNL "a\n\nb\n\nc".data = false := by decide
